import Mathlib

/-!
Verification development for the BurnCloud-Chat repository.

JavaScript/TypeScript strings are modelled as `List Char` (`Str`), numbers as
`Nat` where the code only ever handles non-negative integers, and JSON values
as the inductive `JVal`.  Each definition is a direct translation of the source
function named in its doc comment.
-/

set_option maxRecDepth 10000

/-- JS strings, modelled as lists of unicode scalar values. -/
abbrev Str := List Char

/-- Whitespace characters recognised by `String.prototype.trim` (restricted to
the ASCII whitespace actually occurring in this code base). -/
def isWs (c : Char) : Bool := c = ' ' ∨ c = '\t' ∨ c = '\n' ∨ c = '\r'

/-- `s.trim()` on a JS string. -/
def jsTrim (s : Str) : Str :=
  ((s.dropWhile isWs).reverse.dropWhile isWs).reverse

/- ### Session authenticator (src/src/lib/store/chat-store.ts, basic-session part) -/

/-- The field separator of the session-token format. -/
def bar : Char := '|'

/-- Character for a single decimal digit. -/
def digitChar (d : Nat) : Char := Char.ofNat (48 + d)

/-- Digit-by-digit rendering, structurally recursive on a fuel bound (any
`fuel ≥ n` yields the decimal digits of `n`, most significant first). -/
def natToStrGo : Nat → Nat → Str
  | 0, n => [digitChar n]
  | fuel + 1, n =>
    if n < 10 then [digitChar n]
    else natToStrGo fuel (n / 10) ++ [digitChar (n % 10)]

/-- Decimal rendering of a non-negative integer, as JS template interpolation
`${n}` produces for an integer number. -/
def natToStr (n : Nat) : Str := natToStrGo n n

/-- Decimal digit test. -/
def isDigitChar (c : Char) : Bool := 48 ≤ c.toNat ∧ c.toNat ≤ 57

/-- Value of a string of decimal digits (most significant first). -/
def digitsVal (s : Str) : Nat := s.foldl (fun a c => 10 * a + (c.toNat - 48)) 0

/-- `Number(s)` combined with the `Number.isFinite` guard of
`verifySessionValue`, modelled on the fragment the code meets: strings of
decimal digits parse to their value (leading zeros permitted, exactly as in
JS); every other shape is conservatively rejected. -/
def jsToNum (s : Str) : Option Nat :=
  if s ≠ [] ∧ s.all isDigitChar then some (digitsVal s) else none

/-- `value.split("|")`: total split on the field separator. -/
def splitBar : Str → List Str
  | [] => [[]]
  | c :: cs =>
    if c = bar then [] :: splitBar cs
    else
      match splitBar cs with
      | [] => [[c]]
      | p :: ps => (c :: p) :: ps

/-- `generateSessionValue(username, expiresAt, secret)` from basic-session.
`sha256Hex` is a fixed function whose only property used by the spec is
collision resistance; it is therefore taken as a parameter `hash`, and the
theorems assume exactly the pointwise non-collisions they need. -/
def generateSessionValue (hash : Str → Str) (username : Str) (expiresAt : Nat)
    (secret : Str) : Str :=
  let payload := username ++ bar :: natToStr expiresAt
  let signature := hash (payload ++ bar :: secret)
  payload ++ bar :: signature

/-- `verifySessionValue(value, secret)` from basic-session; `now` is
`Date.now()` in milliseconds.  The JS destructuring takes the first three
fields of the split and ignores any extra; a missing or empty field is falsy
and rejected. -/
def verifySessionValue (hash : Str → Str) (value : Option Str) (secret : Str)
    (now : Nat) : Option (Str × Nat) :=
  match value with
  | none => none
  | some v =>
    match splitBar v with
    | username :: expiresRaw :: signature :: _ =>
      if username = [] ∨ expiresRaw = [] ∨ signature = [] then none
      else
        match jsToNum expiresRaw with
        | none => none
        | some expiresAt =>
          if expiresAt * 1000 < now then none
          else
            let expected := hash (username ++ bar :: natToStr expiresAt ++ bar :: secret)
            if expected ≠ signature then none else some (username, expiresAt)
    | _ => none

/-- A concrete stand-in hash used only to instantiate witnesses: it keeps the
signature free of the field separator.  No global injectivity is assumed
anywhere; witnesses discharge the pointwise non-collision hypotheses on it by
computation. -/
def hashW (s : Str) : Str := s.map (fun c => if c = bar then '/' else c)

/- ### Conversation store (src/src/lib/store/chat-store.ts, useChatStore actions) -/

/-- Message roles. -/
inductive Role where
  | user
  | assistant
  | system
deriving DecidableEq, Repr

/-- Message lifecycle status. -/
inductive MsgStatus where
  | pending
  | streaming
  | done
  | error
deriving DecidableEq, Repr

/-- `ChatMessage` of src/lib/types.ts.  The optional `attachments` list is
carried by no store operation besides plain copying and is omitted. -/
structure ChatMsg where
  id : Str
  conversationId : Str
  role : Role
  content : Str
  status : MsgStatus
  createdAt : Nat
deriving DecidableEq, Repr

/-- `Conversation` of src/lib/types.ts.  The optional `stats` record is only
touched by `updateStats`, which no claim exercises, and is omitted. -/
structure Conv where
  id : Str
  title : Str
  systemPrompt : Str
  createdAt : Nat
  updatedAt : Nat
deriving DecidableEq, Repr

/-- The `messages` record of `ChatStoreState`: a JS object keyed by
conversation id.  Represented as an association list in which the entry placed
first wins on lookup; each operation below inserts so that this matches the
precedence of the corresponding JS object spread. -/
abbrev MsgTable := List (Str × List ChatMsg)

/-- `ChatStoreState`. -/
structure ChatStoreState where
  conversations : List Conv
  messages : MsgTable
deriving DecidableEq, Repr

/-- The store hook state: `ChatStoreState` plus the separately kept
`currentId`. -/
structure Store where
  state : ChatStoreState
  currentId : Str
deriving DecidableEq, Repr

/-- Object property read `messages[id]` (first matching entry wins). -/
def lookupMsgs (m : MsgTable) (id : Str) : Option (List ChatMsg) :=
  (m.find? (fun p => p.1 = id)).map (fun p => p.2)

/-- `messages[id] ?? []` / `messages[id]?.length ?? 0` style access. -/
def getMsgs (m : MsgTable) (id : Str) : List ChatMsg :=
  (lookupMsgs m id).getD []

/-- `createConversation(title)` (the generated id and `Date.now()` are passed
explicitly). -/
def createConversation (title : Str) (newId : Str) (now : Nat) : Conv :=
  { id := newId, title := title, systemPrompt := [], createdAt := now, updatedAt := now }

/-- The default title `"新的聊天"` used by `addConversation`. -/
def defaultTitle : Str := "新的聊天".data

/-- `actions.addConversation(title?)`: reuse the first conversation that has
zero messages, otherwise prepend a fresh one.  In the create branch the JS
spread `{ [conv.id]: [], ...prev.messages }` lets an existing entry win, hence
the new entry is appended behind all previous ones. -/
def addConversation (title : Option Str) (newId : Str) (now : Nat) (s : Store) : Store :=
  match s.state.conversations.find? (fun c => (getMsgs s.state.messages c.id).length = 0) with
  | some c =>
    { state :=
        { conversations :=
            { c with updatedAt := now } :: s.state.conversations.filter (fun d => d.id ≠ c.id)
          messages := s.state.messages }
      currentId := c.id }
  | none =>
    let conv := createConversation (title.getD defaultTitle) newId now
    { state :=
        { conversations := conv :: s.state.conversations
          messages := s.state.messages ++ [(newId, [])] }
      currentId := newId }

/-- `actions.renameConversation(id, title)`. -/
def renameConversation (id : Str) (title : Str) (now : Nat) (s : Store) : Store :=
  { s with
    state :=
      { s.state with
        conversations := s.state.conversations.map (fun c =>
          if c.id = id then { c with title := title, updatedAt := now } else c) } }

/-- `actions.deleteConversation(id)`: drop the conversation and its message
list, then unconditionally `setCurrentId(conversations[0]?.id ?? "")`. -/
def deleteConversation (id : Str) (s : Store) : Store :=
  let conversations := s.state.conversations.filter (fun c => c.id ≠ id)
  let messages := s.state.messages.filter (fun p => p.1 ≠ id)
  { state := { conversations := conversations, messages := messages }
    currentId := ((conversations.head?).map (fun c => c.id)).getD [] }

/-- `actions.addMessage(message)`: append to the owning list; on the first
message of a conversation with role `user`, retitle from
`message.content.slice(0, 30)` — the JS conditional `nextTitle ? nextTitle :
c.title` keeps the old title when the sliced content is the empty (falsy)
string. -/
def addMessage (m : ChatMsg) (now : Nat) (s : Store) : Store :=
  let list := getMsgs s.state.messages m.conversationId
  let isFirstUserMessage : Bool := list.length = 0 ∧ m.role = Role.user
  let nextTitle : Option Str := if isFirstUserMessage then some (m.content.take 30) else none
  { s with
    state :=
      { conversations := s.state.conversations.map (fun c =>
          if c.id = m.conversationId then
            { c with
              title := match nextTitle with
                | some t => if t = [] then c.title else t
                | none => c.title
              updatedAt := now }
          else c)
        messages := (m.conversationId, list ++ [m]) :: s.state.messages } }

/-- A partial `ChatMessage` patch (`Partial<ChatMessage>`). -/
structure MsgPatch where
  id : Option Str := none
  conversationId : Option Str := none
  role : Option Role := none
  content : Option Str := none
  status : Option MsgStatus := none
  createdAt : Option Nat := none

/-- The union `Partial<ChatMessage> | ((msg) => ChatMessage)` accepted by
`updateMessage`. -/
inductive PatchArg where
  | fields (p : MsgPatch)
  | transform (f : ChatMsg → ChatMsg)

/-- `typeof patch === "function" ? patch : (m) => ({ ...m, ...patch })`. -/
def applyPatch (patch : PatchArg) (m : ChatMsg) : ChatMsg :=
  match patch with
  | .transform f => f m
  | .fields p =>
    { id := p.id.getD m.id
      conversationId := p.conversationId.getD m.conversationId
      role := p.role.getD m.role
      content := p.content.getD m.content
      status := p.status.getD m.status
      createdAt := p.createdAt.getD m.createdAt }

/-- `actions.updateMessage(conversationId, messageId, patch)`. -/
def updateMessage (cid : Str) (mid : Str) (patch : PatchArg) (s : Store) : Store :=
  let list := getMsgs s.state.messages cid
  { s with
    state :=
      { s.state with
        messages :=
          (cid, list.map (fun m => if m.id = mid then applyPatch patch m else m))
            :: s.state.messages } }

/-- `currentConversationId = currentId || state.conversations[0]?.id || ""`. -/
def currentConversationId (s : Store) : Str :=
  if s.currentId = [] then ((s.state.conversations.head?).map (fun c => c.id)).getD []
  else s.currentId

/-- Outcome of one `streamChat` call as observed through its callbacks: the
deltas delivered to `onDelta`, and whether the stream ended normally, through
`onError`, or through an abort. -/
inductive StreamOutcome where
  | success (deltas : List Str)
  | failure (deltas : List Str) (errMsg : Str)
  | aborted (deltas : List Str)

/-- The deltas of an outcome. -/
def StreamOutcome.deltas : StreamOutcome → List Str
  | .success ds => ds
  | .failure ds _ => ds
  | .aborted ds => ds

/-- The `onDelta` wiring of `handleSend`: each delta appends to the streaming
assistant message's content through `updateMessage` with a transform. -/
def applyDeltas (cid aid : Str) (deltas : List Str) (s : Store) : Store :=
  deltas.foldl
    (fun st d =>
      updateMessage cid aid (.transform (fun m => { m with content := m.content ++ d })) st)
    s

/-- `handleSend` of src/app/page.tsx, with the network exchange abstracted into
its observable `StreamOutcome`: append the user message, append the assistant
message in `streaming` state, apply the deltas, on failure let `onError` patch
the status to `error`, and after `streamChat` returns unconditionally patch
the status to `done`. -/
def handleSend (input : Str) (userId assistantId : Str) (now : Nat)
    (outcome : StreamOutcome) (s : Store) : Store :=
  if jsTrim input = [] ∨ currentConversationId s = [] then s
  else
    let cid := currentConversationId s
    let s1 := addMessage
      { id := userId, conversationId := cid, role := .user, content := jsTrim input,
        status := .done, createdAt := now } now s
    let s2 := addMessage
      { id := assistantId, conversationId := cid, role := .assistant, content := [],
        status := .streaming, createdAt := now } now s1
    let s3 := applyDeltas cid assistantId outcome.deltas s2
    let s4 := match outcome with
      | .failure _ _ => updateMessage cid assistantId (.fields { status := some .error }) s3
      | _ => s3
    updateMessage cid assistantId (.fields { status := some .done }) s4

/- ### Chat request gateway (src/src/app/api/chat/route.ts, src/src/lib/providers) -/

/-- JSON values, as produced by `await req.json()`. -/
inductive JVal where
  | jnull
  | jbool (b : Bool)
  | jnum (n : Int)
  | jstr (s : Str)
  | jarr (xs : List JVal)
  | jobj (fs : List (Str × JVal))

/-- Property access `v.k`: defined on objects (later duplicate keys win, as
after `JSON.parse`), `none` (undefined) on every other value. -/
def jget (v : JVal) (k : Str) : Option JVal :=
  match v with
  | .jobj fs => fs.foldl (fun acc p => if p.1 = k then some p.2 else acc) none
  | _ => none

/-- `typeof x === "string"` on an optional JSON value. -/
def isStrO (o : Option JVal) : Bool :=
  match o with
  | some (.jstr _) => true
  | _ => false

/-- The string payload of an optional JSON value, when it is a string. -/
def asStrO (o : Option JVal) : Option Str :=
  match o with
  | some (.jstr s) => some s
  | _ => none

/-- `isChatMessageArray` of route.ts. -/
def isChatMessageArray (o : Option JVal) : Bool :=
  match o with
  | some (.jarr l) =>
    !l.isEmpty &&
      l.all (fun m =>
        isStrO (jget m "content".data) &&
          (match jget m "role".data with
           | some (.jstr r) =>
             r = "user".data ∨ r = "assistant".data ∨ r = "system".data
           | _ => false))
  | _ => false

/-- `isAttachmentArray` of route.ts. -/
def isAttachmentArray (o : Option JVal) : Bool :=
  match o with
  | some (.jarr l) =>
    l.all (fun a =>
      (match jget a "type".data with
       | some (.jstr t) => t = "image".data ∨ t = "video".data
       | _ => false) &&
      (match jget a "size".data with
       | none => true
       | some (.jnum _) => true
       | some _ => false) &&
      (match jget a "mime".data with
       | none => true
       | some (.jstr _) => true
       | some _ => false))
  | _ => false

/-- The caller-supplied override list
`Array.isArray(providerConfig?.models) ? providerConfig.models : undefined`. -/
def overrideModelsOf (bv : JVal) : Option (List JVal) :=
  match jget ((jget bv "providerConfig".data).getD .jnull) "models".data with
  | some (.jarr xs) => some xs
  | _ => none

/-- Equality test `x === model` as `includes` performs it: only a JSON string
equal to the string compares true. -/
def jvalEqStr (v : JVal) (s : Str) : Bool :=
  match v with
  | .jstr t => t = s
  | _ => false

/-- A resolved provider configuration (src/lib/providers). -/
structure ProviderConfig where
  name : Str
  baseUrl : Str
  path : Str
  models : List Str
  authHeader : Option Str
deriving DecidableEq, Repr

/-- Environment bindings read by the provider registry.  An unset or empty
variable is `none` (both are falsy in the JS checks). -/
structure GatewayEnv where
  burncloudApiKey : Option Str
  burncloudBaseUrl : Option Str
deriving DecidableEq, Repr

/-- The registry's model allow-list for the single `burncloud` provider. -/
def burncloudModels : List Str :=
  ["gpt-4.1".data, "gpt-4o".data, "claude-3-7-sonnet-20250219".data,
   "claude-3-5-sonnet-20241022".data, "deepseek-r1".data, "deepseek-v3".data]

/-- `resolveProvider(key, allowMissingApiKey)` of src/lib/providers. -/
def resolveProvider (key : Str) (allowMissingApiKey : Bool) (env : GatewayEnv) :
    Option ProviderConfig :=
  if key = "burncloud".data then
    let apiKey := env.burncloudApiKey
    if apiKey.isNone ∧ ¬allowMissingApiKey then none
    else
      some
        { name := "BurnCloud".data
          baseUrl := env.burncloudBaseUrl.getD "https://ai.burncloud.com".data
          path := "/v1/chat/completions".data
          models := burncloudModels
          authHeader := apiKey.map (fun k => "Bearer ".data ++ k) }
  else none

/-- One entry of the outbound `messages` array. -/
structure OutMsg where
  role : Str
  content : Str
deriving DecidableEq, Repr

/-- Extraction of the validated message list (role and content are known to be
strings once `isChatMessageArray` holds; anything else maps to a sentinel that
validation has already excluded). -/
def toOutMsgs (v : JVal) : List OutMsg :=
  match v with
  | .jarr l =>
    l.map (fun m =>
      { role := (asStrO (jget m "role".data)).getD []
        content := (asStrO (jget m "content".data)).getD [] })
  | _ => []

/-- The upstream payload assembled by the gateway. -/
structure UpstreamPayload where
  model : Str
  messages : List OutMsg
  stream : Bool
  attachments : Option JVal

/-- Result of the gateway's pre-forward phase: either an error response issued
before any upstream call, or the fully assembled forward request. -/
inductive GatewayResult where
  | reject (status : Nat) (message : Str)
  | forward (baseUrl : Str) (path : Str) (payload : UpstreamPayload)
      (overrideAuth : Option Str)

/-- Truthiness of an optional JS string (`Boolean(x)` / `x ? … : …`): both
`undefined` and the empty string are falsy. -/
def jsTruthyStr (o : Option Str) : Bool := o.getD [] ≠ []

/-- `POST` of src/app/api/chat/route.ts up to (and excluding) the upstream
`fetch`: body parsing, the four validation steps, provider resolution,
override precedence, the model allow-list check, and payload assembly.  The
`URL` join is kept symbolic as the `(baseUrl, path)` pair. -/
def gatewayPOST (body : Option JVal) (env : GatewayEnv) : GatewayResult :=
  match body with
  | none => .reject 400 "请求体需为 JSON".data
  | some bv =>
    let messages := jget bv "messages".data
    let model := jget bv "model".data
    let providerKey := jget bv "provider".data
    let attachments := jget bv "attachments".data
    let options := jget bv "options".data
    let systemPrompt := jget bv "systemPrompt".data
    let providerConfig := (jget bv "providerConfig".data).getD .jnull
    if ¬ isChatMessageArray messages then
      .reject 400 "messages 必须为非空数组且包含 role/content".data
    else
      match asStrO model with
      | none => .reject 400 "model 必须为字符串".data
      | some mdl =>
        match asStrO providerKey with
        | none => .reject 400 "provider 必须为字符串".data
        | some key =>
          let overrideBaseUrl := asStrO (jget providerConfig "baseUrl".data)
          let overrideApiKey := asStrO (jget providerConfig "apiKey".data)
          let overrideModels : Option (List JVal) := overrideModelsOf bv
          match resolveProvider key (jsTruthyStr overrideApiKey) env with
          | none => .reject 400 "未找到可用的 provider 或缺少对应密钥".data
          | some provider =>
            let baseUrl := overrideBaseUrl.getD provider.baseUrl
            let modelsAllow : List JVal :=
              (overrideModels).getD (provider.models.map .jstr)
            if modelsAllow.length > 0 ∧ ¬ modelsAllow.any (fun v => jvalEqStr v mdl) then
              .reject 400 "model 不在该 provider 允许列表中".data
            else if attachments.isSome ∧ ¬ isAttachmentArray attachments then
              .reject 400 "attachments 格式不合法".data
            else
              let streamFlag :=
                match jget ((options).getD .jnull) "stream".data with
                | some (.jbool b) => b
                | _ => true
              let sysMsgs : List OutMsg :=
                match systemPrompt with
                | some (.jstr sp) =>
                  if jsTrim sp ≠ [] then [{ role := "system".data, content := jsTrim sp }]
                  else []
                | _ => []
              .forward baseUrl provider.path
                { model := mdl
                  messages := sysMsgs ++ toOutMsgs (messages.getD .jnull)
                  stream := streamFlag
                  attachments := if attachments.isSome then attachments else none }
                ((overrideApiKey.filter (fun k => k ≠ [])).map
                  (fun k => "Bearer ".data ++ k))

/-- The generic message substituted for a 401/403 upstream body. -/
def authMaskMsg : Str := "上游认证失败，请检查密钥".data

/-- The fallback message substituted for an empty upstream error body. -/
def upstreamFallbackMsg : Str := "上游返回异常".data

/-- The gateway's treatment of the upstream response header
(`if (!upstreamResponse.ok || !upstreamResponse.body) { … }` in route.ts):
`none` means the gateway proceeds to relay the stream; `some (status, msg)` is
the error response it returns instead.  `text` is what
`await upstreamResponse.text()` yields. -/
def upstreamErrorReply (status : Nat) (hasBody : Bool) (text : Str) :
    Option (Nat × Str) :=
  if 200 ≤ status ∧ status ≤ 299 ∧ hasBody then none
  else
    some
      (if status = 0 then 502 else status,
       if status = 401 ∨ status = 403 then authMaskMsg
       else if text = [] then upstreamFallbackMsg
       else text)

/- ### Upload intake (src/unnamed/part_001, app/api/upload) -/

/-- The file extracted from the multipart form.  `size` is the `File.size`
the route checks; `content` is what `file.arrayBuffer()` yields. -/
structure UploadFile where
  name : Str
  mime : Str
  size : Nat
  content : List Nat
deriving Repr

/-- `MAX_SIZE = 5 * 1024 * 1024`. -/
def MAX_SIZE : Nat := 5 * 1024 * 1024

/-- The allowed MIME prefixes. -/
def ALLOWED : List Str := ["image/".data, "video/".data]

/-- The base64 alphabet. -/
def base64Alphabet : Str :=
  "ABCDEFGHIJKLMNOPQRSTUVWXYZabcdefghijklmnopqrstuvwxyz0123456789+/".data

/-- One base64 digit. -/
def b64c (n : Nat) : Char := base64Alphabet.getD n 'A'

/-- `Buffer.from(bytes).toString("base64")`. -/
def base64Encode : List Nat → Str
  | [] => []
  | [a] => [b64c (a / 4), b64c (a % 4 * 16), '=', '=']
  | [a, b] => [b64c (a / 4), b64c (a % 4 * 16 + b / 16), b64c (b % 16 * 4), '=']
  | a :: b :: c :: rest =>
    [b64c (a / 4), b64c (a % 4 * 16 + b / 16), b64c (b % 16 * 4 + c / 64), b64c (c % 64)]
      ++ base64Encode rest

/-- Response of the upload route. -/
inductive UploadResult where
  | reject (status : Nat) (message : Str)
  | ok (url : Str) (thumbUrl : Str) (mime : Str) (size : Nat) (name : Str)
deriving Repr

/-- `POST` of the upload route. -/
def uploadPOST (file : Option UploadFile) : UploadResult :=
  match file with
  | none => .reject 400 "未找到文件".data
  | some f =>
    if ¬ ALLOWED.any (fun p => p.isPrefixOf f.mime) then
      .reject 400 "仅支持图片或视频文件".data
    else if f.size > MAX_SIZE then
      .reject 400 "文件大小超出 5MB 限制".data
    else
      let dataUrl := "data:".data ++ f.mime ++ ";base64,".data ++ base64Encode f.content
      .ok dataUrl dataUrl f.mime f.size f.name

/-- Whether the upload route accepted the file. -/
def UploadResult.isOk : UploadResult → Bool
  | .ok .. => true
  | .reject .. => false

/- ### Stream reconciler (streamChat of src/unnamed/part_002) -/

/-- The replacement character a streaming `TextDecoder` emits on invalid
input.  None of the theorems depend on the exact invalid-input behaviour. -/
def replChar : Char := Char.ofNat 0xFFFD

/-- `TextDecoder` step on a byte arriving with no buffered partial sequence. -/
def leadStep (b : Nat) : List Char × List Nat :=
  if b < 0x80 then ([Char.ofNat b], [])
  else if 0xC0 ≤ b ∧ b < 0xE0 then ([], [b])
  else if 0xE0 ≤ b ∧ b < 0xF0 then ([], [b])
  else if 0xF0 ≤ b ∧ b < 0xF8 then ([], [b])
  else ([replChar], [])

/-- One byte of streaming UTF-8 decoding: `pend` holds the bytes of an
incomplete sequence carried across chunk boundaries (`decoder.decode(value,
{ stream: true })`). -/
def utf8Step (pend : List Nat) (b : Nat) : List Char × List Nat :=
  let cont := 0x80 ≤ b ∧ b < 0xC0
  match pend with
  | [] => leadStep b
  | [b1] =>
    if cont then
      if b1 < 0xE0 then ([Char.ofNat ((b1 - 0xC0) * 64 + (b - 0x80))], [])
      else ([], [b1, b])
    else (replChar :: (leadStep b).1, (leadStep b).2)
  | [b1, b2] =>
    if cont then
      if b1 < 0xF0 then
        ([Char.ofNat ((b1 - 0xE0) * 4096 + (b2 - 0x80) * 64 + (b - 0x80))], [])
      else ([], [b1, b2, b])
    else (replChar :: (leadStep b).1, (leadStep b).2)
  | [b1, b2, b3] =>
    if cont then
      ([Char.ofNat ((b1 - 0xF0) * 262144 + (b2 - 0x80) * 4096 + (b3 - 0x80) * 64 + (b - 0x80))], [])
    else (replChar :: (leadStep b).1, (leadStep b).2)
  | _ => ([replChar], [])

/-- Streaming decode of one chunk starting from carried state `pend`,
returning the decoded text and the new carried state. -/
def decodeChunk (pend : List Nat) (bytes : List Nat) : List Char × List Nat :=
  bytes.foldl
    (fun acc b =>
      let r := utf8Step acc.2 b
      (acc.1 ++ r.1, r.2))
    ([], pend)

/-- UTF-8 encoding of one scalar value, as `TextEncoder` produces it. -/
def encodeChar (c : Char) : List Nat :=
  let v := c.toNat
  if v < 0x80 then [v]
  else if v < 0x800 then [0xC0 + v / 64, 0x80 + v % 64]
  else if v < 0x10000 then [0xE0 + v / 4096, 0x80 + v / 64 % 64, 0x80 + v % 64]
  else [0xF0 + v / 262144, 0x80 + v / 4096 % 64, 0x80 + v / 64 % 64, 0x80 + v % 64]

/-- UTF-8 encoding of a string. -/
def utf8Encode (s : Str) : List Nat := (s.map encodeChar).flatten

/-- `buffer.split("\n\n")` with the trailing element (`parts.pop()`) kept as
the carry: leftmost, non-overlapping. -/
def splitNN : List Char → List (List Char) × List Char
  | [] => ([], [])
  | [c] => ([], [c])
  | c1 :: c2 :: rest =>
    if c1 = '\n' ∧ c2 = '\n' then
      let r := splitNN rest
      ([] :: r.1, r.2)
    else
      let r := splitNN (c2 :: rest)
      match r.1 with
      | [] => ([], c1 :: r.2)
      | p :: ps => ((c1 :: p) :: ps, r.2)

/-- `part.split("\n")`: total split on single newlines. -/
def splitN : List Char → List (List Char)
  | [] => [[]]
  | c :: cs =>
    if c = '\n' then [] :: splitN cs
    else
      match splitN cs with
      | [] => [[c]]
      | p :: ps => (c :: p) :: ps

/-- `l.replace(/^data: /, "")`: strip one leading `"data: "`. -/
def stripDataTag (l : List Char) : List Char :=
  if "data: ".data.isPrefixOf l then l.drop 6 else l

/-- Reconstruction of one increment:
`part.split("\n").map((l) => l.replace(/^data: /, "")).join("\n")`. -/
def processPart (part : List Char) : List Char :=
  List.intercalate ['\n'] ((splitN part).map stripDataTag)

/-- The termination sentinel `"[DONE]"`. -/
def doneChars : List Char := "[DONE]".data

/-- Consumer state of the `streamChat` read loop: the decoder's carried bytes,
the carry `buffer` of the delimiter splitter, the content accumulated through
`onDelta`, and whether the `[DONE]` sentinel already returned from the loop.
After the sentinel the code returns and never consults the carried state
again, so it is normalised to empty there. -/
structure CState where
  dec : List Nat
  buffer : List Char
  content : List Char
  finished : Bool
deriving DecidableEq, Repr

/-- The initial consumer state (`buffer = ""`, fresh decoder). -/
def initCState : CState := { dec := [], buffer := [], content := [], finished := false }

/-- The `for (const part of parts)` body of streamChat: reconstruct the
increment, return on the sentinel, call `onDelta` (append to content) when
non-empty. -/
def processParts : List (List Char) → CState → CState
  | [], s => s
  | p :: ps, s =>
    let line := processPart p
    if line = doneChars then
      { dec := [], buffer := [], content := s.content, finished := true }
    else if line = [] then processParts ps s
    else processParts ps { s with content := s.content ++ line }

/-- One iteration of the streamChat read loop on a network chunk: streaming
decode, split on the blank-line delimiter keeping the carry, process the
completed parts.  After the sentinel has returned, further chunks are never
read. -/
def processChunk (s : CState) (chunk : List Nat) : CState :=
  if s.finished then s
  else
    let d := decodeChunk s.dec chunk
    let sp := splitNN (s.buffer ++ d.1)
    processParts sp.1 { dec := d.2, buffer := sp.2, content := s.content, finished := false }

/-- The whole consumption of a relayed byte stream delivered as a sequence of
network chunks (the read loop of `streamChat`). -/
def consumeStream (chunks : List (List Nat)) : CState :=
  chunks.foldl processChunk initCState

/-- Modelled from the spec: "the reconstructed message content equals the
concatenation of increments in delivery order", each increment taken "with any
leading `data: ` prefix on each line" stripped "and the remaining lines
rejoined with newlines".  This is the specification side of C1 against which
the consumer is compared. -/
def specContent (incs : List (List Char)) : List Char :=
  (incs.map processPart).flatten

/-- The byte stream encoding a sequence of increments, each terminated by the
blank-line delimiter (the text-event-stream convention of the spec). -/
def encodeIncrements (incs : List (List Char)) : List Nat :=
  utf8Encode ((incs.map (fun i => i ++ ['\n', '\n'])).flatten)

/-- No blank-line delimiter occurs inside the increment. -/
def noNN : List Char → Bool
  | a :: b :: t => !(a = '\n' ∧ b = '\n') && noNN (b :: t)
  | _ => true

/-- The increment does not end with a newline (so that framing is
unambiguous next to the delimiter). -/
def notEndNL (l : List Char) : Bool := l.getLast? ≠ some '\n'

/- ### Shared fixtures and derived definitions used by the theorems -/

/-- The signature `sha256Hex(username + "|" + expiresAt + "|" + secret)` of a
token, written out once so the theorems can refer to it. -/
def sessionSig (hash : Str → Str) (u : Str) (t : Nat) (secret : Str) : Str :=
  hash (u ++ bar :: natToStr t ++ bar :: secret)

/-- The effective allow-list `overrideModels ?? provider.models` the gateway
checks the requested model against. -/
def effModels (bv : JVal) (prov : ProviderConfig) : List JVal :=
  (overrideModelsOf bv).getD (prov.models.map .jstr)

/-- A store holding one conversation `"c"` with no messages. -/
def convC : Conv :=
  { id := "c".data, title := "默认标题".data, systemPrompt := [], createdAt := 0, updatedAt := 0 }

/-- The one-conversation store the concrete scenarios start from. -/
def storeC : Store :=
  { state := { conversations := [convC], messages := [] }, currentId := "c".data }

/-- The empty store (before the cold-start effect seeds a conversation). -/
def emptyStore : Store :=
  { state := { conversations := [], messages := [] }, currentId := [] }

/-- A first user message longer than the 30-character title truncation. -/
def msgLong : Str := "hello world this is a long first message".data

/-- The corresponding `ChatMessage`. -/
def msgM : ChatMsg :=
  { id := "m".data, conversationId := "c".data, role := .user, content := msgLong,
    status := .done, createdAt := 2 }

/-- The store after renaming conversation `"c"` and before any message. -/
def storeRenamed : Store := renameConversation "c".data "自定义标题".data 1 storeC

/-- An image file of exactly 5242880 declared bytes. -/
def fileAtLimit : UploadFile :=
  { name := "a.png".data, mime := "image/png".data, size := 5242880, content := [137, 80] }

/-- A video file one byte over the limit. -/
def fileOverLimit : UploadFile :=
  { name := "b.mp4".data, mime := "video/mp4".data, size := 5242881, content := [0, 0] }

/-- A well-formed chat request naming a model outside the registry list. -/
def reqOffList : JVal :=
  .jobj [("messages".data, .jarr [.jobj [("role".data, .jstr "user".data),
            ("content".data, .jstr "hi".data)]]),
         ("model".data, .jstr "nope-model".data),
         ("provider".data, .jstr "burncloud".data)]

/-- An environment in which the provider secret is configured. -/
def envWithKey : GatewayEnv := { burncloudApiKey := some "k".data, burncloudBaseUrl := none }

/-- The provider configuration `resolveProvider` yields under `envWithKey`. -/
def provResolved : ProviderConfig :=
  { name := "BurnCloud".data, baseUrl := "https://ai.burncloud.com".data,
    path := "/v1/chat/completions".data, models := burncloudModels,
    authHeader := some "Bearer k".data }

/- ### Theorems -/

/-- C10: after every `deleteConversation(id)`, the separately kept current
conversation id equals the id of the first conversation remaining in the list,
or the empty string when none remain — also when the deleted conversation was
not the current one. -/
theorem deleteConversation_current_first (s : Store) (id : Str) :
    (deleteConversation id s).currentId =
      (((deleteConversation id s).state.conversations.head?).map (fun c => c.id)).getD [] :=
  rfl

/-- C8 counterexample: for a non-success, non-auth upstream status with an
empty body, the relayed error message is the fixed fallback text, not the
(empty) upstream body — so the claim that the body text is always relayed for
such statuses fails. -/
theorem upstream_empty_body_counterexample :
    upstreamErrorReply 500 true [] = some (500, upstreamFallbackMsg) ∧
      upstreamFallbackMsg ≠ [] := by
  constructor
  · rfl
  · decide

/-- C8 (amended): a 401 or 403 upstream status is answered with the fixed
generic authentication-failure message whatever the upstream body was, with
the numeric status preserved; for every other non-success status the upstream
body text is relayed verbatim provided it is non-empty (an empty body is
replaced by a fixed fallback message). -/
theorem upstream_error_masking_amended :
    (∀ (status : Nat) (hasBody : Bool) (text : Str), status = 401 ∨ status = 403 →
        upstreamErrorReply status hasBody text = some (status, authMaskMsg)) ∧
    (∀ (status : Nat) (hasBody : Bool) (text : Str),
        ¬(200 ≤ status ∧ status ≤ 299) → status ≠ 401 → status ≠ 403 → status ≠ 0 →
        text ≠ [] →
        upstreamErrorReply status hasBody text = some (status, text)) := by
  constructor
  · intro status hasBody text h
    rcases h with h | h <;> subst h <;> simp [upstreamErrorReply]
  · intro status hasBody text hok h401 h403 h0 htext
    simp only [upstreamErrorReply]
    rw [if_neg (by tauto), if_neg (by omega), if_neg (by tauto), if_neg htext]

/-- Witness for the amended C8 theorem at concrete upstream responses. -/
theorem upstream_error_masking_amended_witness :
    upstreamErrorReply 401 true "account 12 secret key".data = some (401, authMaskMsg) ∧
      upstreamErrorReply 500 true "rate limited".data = some (500, "rate limited".data) :=
  ⟨upstream_error_masking_amended.1 401 true "account 12 secret key".data (Or.inl rfl),
   upstream_error_masking_amended.2 500 true "rate limited".data (by omega) (by omega)
     (by omega) (by omega) (by decide)⟩

/-- C9: an uploaded file whose declared MIME type has an allowed prefix is
accepted at exactly 5242880 bytes and rejected with status 400 at 5242881
bytes. -/
theorem upload_size_boundary (f : UploadFile)
    (hmime : ALLOWED.any (fun p => p.isPrefixOf f.mime) = true) :
    (f.size = 5242880 → (uploadPOST (some f)).isOk = true) ∧
    (f.size = 5242881 → uploadPOST (some f) = .reject 400 "文件大小超出 5MB 限制".data) := by
  constructor
  · intro h
    simp [uploadPOST, hmime, MAX_SIZE, h, UploadResult.isOk]
  · intro h
    simp [uploadPOST, hmime, MAX_SIZE, h]

/-- Witness for the upload boundary at two concrete files. -/
theorem upload_size_boundary_witness :
    (uploadPOST (some fileAtLimit)).isOk = true ∧
      uploadPOST (some fileOverLimit) = .reject 400 "文件大小超出 5MB 限制".data :=
  ⟨(upload_size_boundary fileAtLimit (by decide)).1 rfl,
   (upload_size_boundary fileOverLimit (by decide)).2 rfl⟩

/-- C4: the code contradicts the claim — after the error callback has marked
the assistant message `error`, `handleSend` unconditionally patches its status
to `done` once `streamChat` returns, so a failed send ends with status `done`
rather than keeping the terminal `error` status. -/
theorem handleSend_error_overwritten_to_done :
    ((getMsgs (handleSend "hi".data "u1".data "a1".data 5
          (.failure [] "boom".data) storeC).state.messages "c".data).find?
        (fun m => m.id = "a1".data)).map (fun m => m.status) = some MsgStatus.done ∧
      ((getMsgs (handleSend "hi".data "u1".data "a1".data 5
          (.failure [] "boom".data) storeC).state.messages "c".data).find?
        (fun m => m.id = "a1".data)).map (fun m => m.status) ≠ some MsgStatus.error := by
  constructor <;> decide

/-- C5 counterexample: a conversation explicitly renamed before any message
still has its title overwritten by the first user message — `addMessage`
derives the title from the message content whenever the conversation has zero
messages, a rename notwithstanding. -/
theorem addMessage_after_rename_counterexample :
    (((addMessage msgM 2 storeRenamed).state.conversations.find?
          (fun c => c.id = "c".data)).map (fun c => c.title) = some (msgLong.take 30)) ∧
      msgLong.take 30 ≠ "自定义标题".data := by
  constructor <;> decide

/-- C5 (amended): adding a first user message with non-empty content to a
conversation with zero messages sets that conversation's title to the first 30
characters of the content unconditionally — also when the conversation was
explicitly renamed beforehand; a prior rename does not protect the title. -/
theorem addMessage_first_user_title_amended (s : Store) (m : ChatMsg) (now : Nat)
    (hrole : m.role = Role.user)
    (hempty : getMsgs s.state.messages m.conversationId = [])
    (hcontent : m.content ≠ []) :
    ((addMessage m now s).state.conversations.all
      (fun c => decide (c.id = m.conversationId → c.title = m.content.take 30))) = true := by
  have htake : m.content.take 30 ≠ [] := by
    intro h
    rcases List.take_eq_nil_iff.mp h with h30 | hc
    · omega
    · exact hcontent hc
  simp only [addMessage, hempty, hrole, List.all_map, List.all_eq_true]
  intro c _hc
  by_cases hid : c.id = m.conversationId
  · simp [hid, htake]
  · simp [hid]

/-- Witness for the amended C5 theorem: the concrete renamed conversation gets
the truncated content as title. -/
theorem addMessage_first_user_title_amended_witness :
    ((addMessage msgM 2 storeRenamed).state.conversations.all
      (fun c => decide (c.id = msgM.conversationId → c.title = msgM.content.take 30))) = true :=
  addMessage_first_user_title_amended storeRenamed msgM 2
    (by decide) (by decide) (by decide)

/-- Filtering twice with the same predicate filters once. -/
theorem filter_filter_self {α : Type} (p : α → Bool) (l : List α) :
    (l.filter p).filter p = l.filter p := by
  induction l with
  | nil => rfl
  | cons a t ih =>
    by_cases h : p a <;> simp [List.filter_cons, h, ih]

/-- Appending a fresh empty entry behind the table leaves an empty lookup
empty (the JS spread `{ [id]: [], ...prev }` with `prev` taking precedence). -/
theorem getMsgs_append_empty (m : MsgTable) (id : Str) (h : getMsgs m id = []) :
    getMsgs (m ++ [(id, [])]) id = [] := by
  cases hf : m.find? (fun p => p.1 = id) with
  | none => simp [getMsgs, lookupMsgs, List.find?_append, hf]
  | some p =>
    have hp2 : p.2 = [] := by
      simpa [getMsgs, lookupMsgs, hf] using h
    simp [getMsgs, lookupMsgs, List.find?_append, hf, hp2]

/-- The reuse branch of `addConversation`, written out. -/
theorem addConversation_reuse (t : Option Str) (newId : Str) (now : Nat) (s : Store)
    (c : Conv)
    (hfind : s.state.conversations.find?
        (fun c => (getMsgs s.state.messages c.id).length = 0) = some c) :
    addConversation t newId now s =
      { state :=
          { conversations :=
              { c with updatedAt := now } :: s.state.conversations.filter (fun d => d.id ≠ c.id)
            messages := s.state.messages }
        currentId := c.id } := by
  unfold addConversation
  rw [hfind]

/-- The create branch of `addConversation`, written out. -/
theorem addConversation_create (t : Option Str) (newId : Str) (now : Nat) (s : Store)
    (hfind : s.state.conversations.find?
        (fun c => (getMsgs s.state.messages c.id).length = 0) = none) :
    addConversation t newId now s =
      { state :=
          { conversations := createConversation (t.getD defaultTitle) newId now
              :: s.state.conversations
            messages := s.state.messages ++ [(newId, [])] }
        currentId := newId } := by
  unfold addConversation
  rw [hfind]

/-- C6: two consecutive `addConversation` calls with no message in between
create at most one conversation: the second call finds the empty conversation
left by the first and reuses it, so the conversation count does not grow
again (`id1` is the freshly generated id of the first call). -/
theorem addConversation_idempotent_reuse (s : Store) (id1 id2 : Str)
    (t1 t2 : Option Str) (n1 n2 : Nat)
    (hfresh : ∀ c ∈ s.state.conversations, c.id ≠ id1)
    (hmsgs : getMsgs s.state.messages id1 = []) :
    (addConversation t2 id2 n2 (addConversation t1 id1 n1 s)).state.conversations.length =
      (addConversation t1 id1 n1 s).state.conversations.length ∧
    (addConversation t1 id1 n1 s).state.conversations.length ≤
      s.state.conversations.length + 1 := by
  cases hfind : s.state.conversations.find?
      (fun c => (getMsgs s.state.messages c.id).length = 0) with
  | some c =>
    rw [addConversation_reuse t1 id1 n1 s c hfind]
    have hc : (getMsgs s.state.messages c.id).length = 0 := by
      simpa using List.find?_some hfind
    have hfind2 :
        (({ c with updatedAt := n1 } :: s.state.conversations.filter (fun d => d.id ≠ c.id))
            |>.find? (fun c' => (getMsgs s.state.messages c'.id).length = 0)) =
          some { c with updatedAt := n1 } :=
      List.find?_cons_of_pos _ (by simpa using hc)
    constructor
    · rw [addConversation_reuse t2 id2 n2 _ _ hfind2]
      simp [List.filter_cons, filter_filter_self]
    · simp [Nat.succ_le_succ (List.length_filter_le _ _)]
  | none =>
    rw [addConversation_create t1 id1 n1 s hfind]
    have hm2 : getMsgs (s.state.messages ++ [(id1, [])]) id1 = [] :=
      getMsgs_append_empty _ _ hmsgs
    have hfind2 :
        ((createConversation (t1.getD defaultTitle) id1 n1 :: s.state.conversations).find?
            (fun c' => (getMsgs (s.state.messages ++ [(id1, [])]) c'.id).length = 0)) =
          some (createConversation (t1.getD defaultTitle) id1 n1) :=
      List.find?_cons_of_pos _ (by simp [createConversation, hm2])
    constructor
    · rw [addConversation_reuse t2 id2 n2 _ _ hfind2]
      simp only [List.length_cons, Nat.succ_inj, List.filter_cons, createConversation]
      simp only [decide_not]
      simp [List.filter_eq_self]
      intro a ha
      exact hfresh a ha
    · simp

/-- Witness for C6 starting from the empty store with fresh ids. -/
theorem addConversation_idempotent_reuse_witness :
    (addConversation none "n2".data 4 (addConversation none "n1".data 3 emptyStore)).state.conversations.length =
      (addConversation none "n1".data 3 emptyStore).state.conversations.length ∧
    (addConversation none "n1".data 3 emptyStore).state.conversations.length ≤
      emptyStore.state.conversations.length + 1 :=
  addConversation_idempotent_reuse emptyStore "n1".data "n2".data none none 3 4
    (by decide) (by decide)

/-- C7: a chat request that passes body, message, model and provider
validation, whose resolved effective allow-list (override list if present,
otherwise the registry list) is non-empty and lacks the requested model, is
rejected with status 400 before the gateway builds any forward request. -/
theorem gateway_model_allowlist_reject (bv : JVal) (env : GatewayEnv) (mdl key : Str)
    (prov : ProviderConfig)
    (hmsgs : isChatMessageArray (jget bv "messages".data) = true)
    (hmdl : asStrO (jget bv "model".data) = some mdl)
    (hkey : asStrO (jget bv "provider".data) = some key)
    (hprov : resolveProvider key
        (jsTruthyStr (asStrO (jget ((jget bv "providerConfig".data).getD .jnull) "apiKey".data)))
        env = some prov)
    (hne : (effModels bv prov).length ≠ 0)
    (hnotin : ∀ v ∈ effModels bv prov, jvalEqStr v mdl = false) :
    gatewayPOST (some bv) env = .reject 400 "model 不在该 provider 允许列表中".data := by
  have hany : (effModels bv prov).any (fun v => jvalEqStr v mdl) = false := by
    rw [List.any_eq_false]
    intro v hv
    simp [hnotin v hv]
  have heff : Option.getD (overrideModelsOf bv) (List.map JVal.jstr prov.models) =
      effModels bv prov := rfl
  simp only [gatewayPOST, hmsgs, hmdl, hkey, hprov, heff]
  simp [hany, Nat.pos_of_ne_zero hne]

/-- Witness for C7 at a concrete request: model `"nope-model"` is not among
the six registry models, so the request is rejected with 400. -/
theorem gateway_model_allowlist_reject_witness :
    gatewayPOST (some reqOffList) envWithKey =
      .reject 400 "model 不在该 provider 允许列表中".data :=
  gateway_model_allowlist_reject reqOffList envWithKey "nope-model".data "burncloud".data
    provResolved (by decide) (by decide) (by decide) (by decide) (by decide) (by decide)

/-- A decimal digit character's code. -/
theorem digitChar_toNat (d : Nat) (h : d < 10) : (digitChar d).toNat = 48 + d := by
  interval_cases d <;> decide

/-- Digit characters are not the field separator. -/
theorem digitChar_ne_bar (d : Nat) (h : d < 10) : digitChar d ≠ bar := by
  interval_cases d <;> decide

/-- Digit characters pass the digit test. -/
theorem isDigitChar_digitChar (d : Nat) (h : d < 10) : isDigitChar (digitChar d) = true := by
  interval_cases d <;> decide

/-- Decimal renderings are never empty. -/
theorem natToStrGo_ne_nil (fuel n : Nat) : natToStrGo fuel n ≠ [] := by
  cases fuel with
  | zero => simp [natToStrGo]
  | succ f =>
    simp only [natToStrGo]
    split <;> simp

/-- Decimal renderings are never empty. -/
theorem natToStr_ne_nil (n : Nat) : natToStr n ≠ [] := natToStrGo_ne_nil n n

/-- Decimal renderings consist of digits (given enough fuel). -/
theorem natToStrGo_all_digits :
    ∀ fuel n, n ≤ fuel → (natToStrGo fuel n).all isDigitChar = true := by
  intro fuel
  induction fuel with
  | zero =>
    intro n h
    have hn : n = 0 := by omega
    subst hn
    decide
  | succ f ih =>
    intro n h
    simp only [natToStrGo]
    by_cases h10 : n < 10
    · simp [h10, isDigitChar_digitChar n h10]
    · have hdiv : n / 10 ≤ f := by omega
      simp only [h10, if_false, List.all_append]
      simp [ih (n / 10) hdiv, isDigitChar_digitChar (n % 10) (by omega)]

/-- Decimal renderings consist of digits. -/
theorem natToStr_all_digits (n : Nat) : (natToStr n).all isDigitChar = true :=
  natToStrGo_all_digits n n (Nat.le_refl n)

/-- The field separator does not occur in a decimal rendering. -/
theorem bar_not_mem_natToStrGo :
    ∀ fuel n, n ≤ fuel → bar ∉ natToStrGo fuel n := by
  intro fuel
  induction fuel with
  | zero =>
    intro n h
    have hn : n = 0 := by omega
    subst hn
    decide
  | succ f ih =>
    intro n h
    simp only [natToStrGo]
    by_cases h10 : n < 10
    · simp only [h10, if_true]
      intro hmem
      simp at hmem
      exact digitChar_ne_bar n h10 hmem.symm
    · have hdiv : n / 10 ≤ f := by omega
      simp only [h10, if_false]
      intro hmem
      rcases List.mem_append.mp hmem with hm | hm
      · exact ih (n / 10) hdiv hm
      · simp at hm
        exact digitChar_ne_bar (n % 10) (by omega) hm.symm

/-- The field separator does not occur in a decimal rendering. -/
theorem bar_not_mem_natToStr (n : Nat) : bar ∉ natToStr n :=
  bar_not_mem_natToStrGo n n (Nat.le_refl n)

/-- Peeling the last digit off a digit-string value. -/
theorem digitsVal_append (xs : Str) (c : Char) :
    digitsVal (xs ++ [c]) = 10 * digitsVal xs + (c.toNat - 48) := by
  simp only [digitsVal, List.foldl_append, List.foldl]

/-- Parsing a decimal rendering recovers the number (given enough fuel). -/
theorem digitsVal_natToStrGo :
    ∀ fuel n, n ≤ fuel → digitsVal (natToStrGo fuel n) = n := by
  intro fuel
  induction fuel with
  | zero =>
    intro n h
    have hn : n = 0 := by omega
    subst hn
    decide
  | succ f ih =>
    intro n h
    simp only [natToStrGo]
    by_cases h10 : n < 10
    · simp only [h10, if_true, digitsVal, List.foldl]
      rw [digitChar_toNat n h10]
      omega
    · have hdiv : n / 10 ≤ f := by omega
      simp only [h10, if_false, digitsVal_append, ih (n / 10) hdiv,
        digitChar_toNat (n % 10) (by omega)]
      omega

/-- Parsing a decimal rendering recovers the number. -/
theorem digitsVal_natToStr (n : Nat) : digitsVal (natToStr n) = n :=
  digitsVal_natToStrGo n n (Nat.le_refl n)

/-- `Number` round-trips on the canonical rendering. -/
theorem jsToNum_natToStr (n : Nat) : jsToNum (natToStr n) = some n := by
  simp [jsToNum, natToStr_ne_nil, natToStr_all_digits, digitsVal_natToStr]

/-- A successfully parsed expiry string is non-empty. -/
theorem jsToNum_ne_nil (e : Str) (t : Nat) (h : jsToNum e = some t) : e ≠ [] := by
  intro h0
  subst h0
  simp [jsToNum] at h

/-- Splitting a separator-free string yields that single field. -/
theorem splitBar_no_bar (a : Str) (h : bar ∉ a) : splitBar a = [a] := by
  induction a with
  | nil => rfl
  | cons c cs ih =>
    have hc : ¬(c = bar) := fun hh => h (hh ▸ List.mem_cons_self c cs)
    have hcs : bar ∉ cs := fun hm => h (List.mem_cons_of_mem _ hm)
    simp [splitBar, hc, ih hcs]

/-- Splitting consumes the first separator after a separator-free field. -/
theorem splitBar_append (a rest : Str) (h : bar ∉ a) :
    splitBar (a ++ bar :: rest) = a :: splitBar rest := by
  induction a with
  | nil => simp [splitBar]
  | cons c cs ih =>
    have hc : ¬(c = bar) := fun hh => h (hh ▸ List.mem_cons_self c cs)
    have hcs : bar ∉ cs := fun hm => h (List.mem_cons_of_mem _ hm)
    simp [splitBar, hc, ih hcs]

/-- A three-field token splits into exactly its fields. -/
theorem splitBar_token (u e sg : Str) (hu : bar ∉ u) (he : bar ∉ e) (hs : bar ∉ sg) :
    splitBar (u ++ bar :: (e ++ bar :: sg)) = [u, e, sg] := by
  rw [splitBar_append u _ hu, splitBar_append e sg he, splitBar_no_bar sg hs]

/-- The minted token, written as its three fields. -/
theorem generateSessionValue_eq (hash : Str → Str) (u : Str) (t : Nat) (secret : Str) :
    generateSessionValue hash u t secret =
      u ++ bar :: (natToStr t ++ bar :: sessionSig hash u t secret) := by
  simp [generateSessionValue, sessionSig, List.append_assoc]

/-- Evaluation of `verifySessionValue` on an arbitrary three-field token with
separator-free, non-empty fields. -/
theorem verify_eval (hash : Str → Str) (u e sg secret : Str) (now : Nat)
    (hu : bar ∉ u) (he : bar ∉ e) (hs : bar ∉ sg)
    (hun : u ≠ []) (hen : e ≠ []) (hsn : sg ≠ []) :
    verifySessionValue hash (some (u ++ bar :: (e ++ bar :: sg))) secret now =
      match jsToNum e with
      | none => none
      | some t =>
        if t * 1000 < now then none
        else if hash (u ++ bar :: natToStr t ++ bar :: secret) ≠ sg then none
        else some (u, t) := by
  simp only [verifySessionValue, splitBar_token u e sg hu he hs]
  simp [hun, hen, hsn]

/-- Evaluation of `verifySessionValue` when the expiry field parses. -/
theorem verify_eval_parsed (hash : Str → Str) (u e sg secret : Str) (now t : Nat)
    (hu : bar ∉ u) (he : bar ∉ e) (hs : bar ∉ sg)
    (hun : u ≠ []) (hsn : sg ≠ []) (hparse : jsToNum e = some t) :
    verifySessionValue hash (some (u ++ bar :: (e ++ bar :: sg))) secret now =
      if t * 1000 < now then none
      else if hash (u ++ bar :: natToStr t ++ bar :: secret) ≠ sg then none
      else some (u, t) := by
  rw [verify_eval hash u e sg secret now hu he hs hun (jsToNum_ne_nil e t hparse) hsn, hparse]

/-- C2 (amended): for a username and signature that are non-empty and free of
the separator, a minted token verifies while the current time has not passed
`expiresAt * 1000` and fails afterwards; it fails under any secret whose
recomputed signature differs, and altering the username or signature field (to
a separator-free non-empty value with differing signature) invalidates it, as
does rewriting the expiry field to a string parsing to a different value —
but rewriting the expiry field to a different string that parses to the same
numeric value (for instance with a leading zero) still verifies, because the
signature is recomputed from the re-parsed number, so single-field tamper
detection does not hold for the expiry field. -/
theorem session_roundtrip_amended (hash : Str → Str) (u secret : Str) (t : Nat)
    (hu : u ≠ []) (hbu : bar ∉ u)
    (hsg : sessionSig hash u t secret ≠ []) (hbsg : bar ∉ sessionSig hash u t secret) :
    (∀ now, now < t * 1000 →
        verifySessionValue hash (some (generateSessionValue hash u t secret)) secret now =
          some (u, t)) ∧
    (∀ now, t * 1000 < now →
        verifySessionValue hash (some (generateSessionValue hash u t secret)) secret now =
          none) ∧
    (∀ now secret2, hash (u ++ bar :: natToStr t ++ bar :: secret2) ≠ sessionSig hash u t secret →
        verifySessionValue hash (some (generateSessionValue hash u t secret)) secret2 now =
          none) ∧
    (∀ now u2, u2 ≠ [] → bar ∉ u2 →
        hash (u2 ++ bar :: natToStr t ++ bar :: secret) ≠ sessionSig hash u t secret →
        verifySessionValue hash
          (some (u2 ++ bar :: (natToStr t ++ bar :: sessionSig hash u t secret))) secret now =
          none) ∧
    (∀ now sg2, sg2 ≠ [] → bar ∉ sg2 → sg2 ≠ sessionSig hash u t secret →
        verifySessionValue hash
          (some (u ++ bar :: (natToStr t ++ bar :: sg2))) secret now = none) ∧
    (∀ now e2, jsToNum e2 = some t → bar ∉ e2 → now ≤ t * 1000 →
        verifySessionValue hash
          (some (u ++ bar :: (e2 ++ bar :: sessionSig hash u t secret))) secret now =
          some (u, t)) ∧
    (∀ now e2 t2, jsToNum e2 = some t2 → bar ∉ e2 →
        hash (u ++ bar :: natToStr t2 ++ bar :: secret) ≠ sessionSig hash u t secret →
        verifySessionValue hash
          (some (u ++ bar :: (e2 ++ bar :: sessionSig hash u t secret))) secret now = none) := by
  refine ⟨?_, ?_, ?_, ?_, ?_, ?_, ?_⟩
  · intro now hnow
    rw [generateSessionValue_eq,
      verify_eval_parsed hash u (natToStr t) (sessionSig hash u t secret) secret now t hbu
        (bar_not_mem_natToStr t) hbsg hu hsg (jsToNum_natToStr t)]
    simp only [sessionSig]
    rw [if_neg (by omega), if_neg (by simp)]
  · intro now hnow
    rw [generateSessionValue_eq,
      verify_eval_parsed hash u (natToStr t) (sessionSig hash u t secret) secret now t hbu
        (bar_not_mem_natToStr t) hbsg hu hsg (jsToNum_natToStr t)]
    rw [if_pos (by omega)]
  · intro now secret2 hdiff
    rw [generateSessionValue_eq,
      verify_eval_parsed hash u (natToStr t) (sessionSig hash u t secret) secret2 now t hbu
        (bar_not_mem_natToStr t) hbsg hu hsg (jsToNum_natToStr t)]
    by_cases hexp : t * 1000 < now
    · rw [if_pos hexp]
    · rw [if_neg hexp, if_pos hdiff]
  · intro now u2 hu2 hbu2 hdiff
    rw [verify_eval_parsed hash u2 (natToStr t) (sessionSig hash u t secret) secret now t hbu2
        (bar_not_mem_natToStr t) hbsg hu2 hsg (jsToNum_natToStr t)]
    by_cases hexp : t * 1000 < now
    · rw [if_pos hexp]
    · rw [if_neg hexp, if_pos hdiff]
  · intro now sg2 hsg2 hbsg2 hne2
    rw [verify_eval_parsed hash u (natToStr t) sg2 secret now t hbu
        (bar_not_mem_natToStr t) hbsg2 hu hsg2 (jsToNum_natToStr t)]
    by_cases hexp : t * 1000 < now
    · rw [if_pos hexp]
    · rw [if_neg hexp, if_pos (fun hh => hne2 (by simpa [sessionSig] using hh.symm))]
  · intro now e2 hparse hbe2 hnow
    rw [verify_eval_parsed hash u e2 (sessionSig hash u t secret) secret now t hbu
        hbe2 hbsg hu hsg hparse]
    simp only [sessionSig]
    rw [if_neg (by omega), if_neg (by simp)]
  · intro now e2 t2 hparse hbe2 hdiff
    rw [verify_eval_parsed hash u e2 (sessionSig hash u t secret) secret now t2 hbu
        hbe2 hbsg hu hsg hparse]
    by_cases hexp : t2 * 1000 < now
    · rw [if_pos hexp]
    · rw [if_neg hexp, if_pos hdiff]

/-- Witness for the amended C2 theorem: a token for `"alice"`, expiry 2,
secret `"K"`, verified under the concrete stand-in hash before expiry. -/
theorem session_roundtrip_amended_witness :
    verifySessionValue hashW (some (generateSessionValue hashW "alice".data 2 "K".data))
        "K".data 1999 = some ("alice".data, 2) :=
  (session_roundtrip_amended hashW "alice".data "K".data 2
      (by decide) (by decide) (by decide) (by decide)).1 1999 (by decide)

/-- C2 counterexample: rewriting exactly one field — the expiry — from `"2"`
to `"02"` leaves a token that still verifies (returning the original payload),
because verification recomputes the signature from the re-parsed numeric
value; so "verification fails for any token in which exactly one of the three
fields has been altered" is false on this code. -/
theorem verifySession_tamper_counterexample :
    ("02".data ≠ natToStr 2) ∧
      ("alice".data ++ bar :: ("02".data ++ bar :: sessionSig hashW "alice".data 2 "K".data) ≠
        generateSessionValue hashW "alice".data 2 "K".data) ∧
      verifySessionValue hashW
        (some ("alice".data ++ bar :: ("02".data ++ bar :: sessionSig hashW "alice".data 2 "K".data)))
        "K".data 0 = some ("alice".data, 2) := by
  refine ⟨by decide, by decide, by decide⟩

/-- The decoder fold accumulates emitted text on the left. -/
theorem decodeChunk_go :
    ∀ (bytes : List Nat) (cs : List Char) (pend : List Nat),
      List.foldl
        (fun acc b =>
          let r := utf8Step acc.2 b
          (acc.1 ++ r.1, r.2)) (cs, pend) bytes =
      (cs ++ (decodeChunk pend bytes).1, (decodeChunk pend bytes).2) := by
  intro bytes
  induction bytes with
  | nil => intro cs pend; simp [decodeChunk]
  | cons b bs ih =>
    intro cs pend
    simp only [decodeChunk, List.foldl]
    rw [ih, ih]
    simp [List.append_assoc]

/-- Streaming decoding is a chunk homomorphism: decoding `a ++ b` equals
decoding `a`, then decoding `b` from the carried state. -/
theorem decodeChunk_append (pend a b : List Nat) :
    decodeChunk pend (a ++ b) =
      ((decodeChunk pend a).1 ++ (decodeChunk (decodeChunk pend a).2 b).1,
        (decodeChunk (decodeChunk pend a).2 b).2) := by
  simp only [decodeChunk, List.foldl_append]
  rw [show List.foldl
      (fun acc b =>
        let r := utf8Step acc.2 b
        (acc.1 ++ r.1, r.2)) ([], pend) a = decodeChunk pend a from rfl]
  rw [show decodeChunk pend a = ((decodeChunk pend a).1, (decodeChunk pend a).2) from rfl]
  rw [decodeChunk_go]
  simp [decodeChunk]

/-- Decoding a two-byte sequence. -/
theorem decodeChunk_two (b1 b2 : Nat) (h1 : 0xC0 ≤ b1) (h2 : b1 < 0xE0)
    (h3 : 0x80 ≤ b2) (h4 : b2 < 0xC0) :
    decodeChunk [] [b1, b2] = ([Char.ofNat ((b1 - 0xC0) * 64 + (b2 - 0x80))], []) := by
  have n1 : ¬ (b1 < 0x80) := by omega
  simp [decodeChunk, utf8Step, leadStep, n1, h1, h2, h3, h4]

/-- Decoding a three-byte sequence. -/
theorem decodeChunk_three (b1 b2 b3 : Nat) (h1 : 0xE0 ≤ b1) (h2 : b1 < 0xF0)
    (h3 : 0x80 ≤ b2) (h4 : b2 < 0xC0) (h5 : 0x80 ≤ b3) (h6 : b3 < 0xC0) :
    decodeChunk [] [b1, b2, b3] =
      ([Char.ofNat ((b1 - 0xE0) * 4096 + (b2 - 0x80) * 64 + (b3 - 0x80))], []) := by
  have n1 : ¬ (b1 < 0x80) := by omega
  have n2 : ¬ (b1 < 0xE0) := by omega
  simp [decodeChunk, utf8Step, leadStep, n1, n2, h1, h2, h3, h4, h5, h6]

/-- Decoding a four-byte sequence. -/
theorem decodeChunk_four (b1 b2 b3 b4 : Nat) (h1 : 0xF0 ≤ b1) (h2 : b1 < 0xF8)
    (h3 : 0x80 ≤ b2) (h4 : b2 < 0xC0) (h5 : 0x80 ≤ b3) (h6 : b3 < 0xC0)
    (h7 : 0x80 ≤ b4) (h8 : b4 < 0xC0) :
    decodeChunk [] [b1, b2, b3, b4] =
      ([Char.ofNat ((b1 - 0xF0) * 262144 + (b2 - 0x80) * 4096 + (b3 - 0x80) * 64 + (b4 - 0x80))],
        []) := by
  have n1 : ¬ (b1 < 0x80) := by omega
  have n2 : ¬ (b1 < 0xE0) := by omega
  have n3 : ¬ (b1 < 0xF0) := by omega
  simp [decodeChunk, utf8Step, leadStep, n1, n2, n3, h1, h2, h3, h4, h5, h6, h7, h8]

/-- The streaming decoder inverts the encoder on one scalar value. -/
theorem decodeChunk_encodeChar (c : Char) : decodeChunk [] (encodeChar c) = ([c], []) := by
  have hv : c.toNat < 1114112 := by
    rcases c.valid with h | h
    · exact Nat.lt_trans h (by norm_num)
    · exact h.2
  by_cases h1 : c.toNat < 0x80
  · simp only [encodeChar, h1, if_true]
    simp [decodeChunk, utf8Step, leadStep, h1, Char.ofNat_toNat]
  · by_cases h2 : c.toNat < 0x800
    · simp only [encodeChar, h1, h2, if_false, if_true]
      rw [decodeChunk_two _ _ (by omega) (by omega) (by omega) (by omega)]
      rw [show (0xC0 + c.toNat / 64 - 0xC0) * 64 + (0x80 + c.toNat % 64 - 0x80) = c.toNat by
        omega]
      rw [Char.ofNat_toNat]
    · by_cases h3 : c.toNat < 0x10000
      · simp only [encodeChar, h1, h2, h3, if_false, if_true]
        rw [decodeChunk_three _ _ _ (by omega) (by omega) (by omega) (by omega) (by omega)
          (by omega)]
        rw [show (0xE0 + c.toNat / 4096 - 0xE0) * 4096 + (0x80 + c.toNat / 64 % 64 - 0x80) * 64 +
            (0x80 + c.toNat % 64 - 0x80) = c.toNat by omega]
        rw [Char.ofNat_toNat]
      · simp only [encodeChar, h1, h2, h3, if_false]
        rw [decodeChunk_four _ _ _ _ (by omega) (by omega) (by omega) (by omega) (by omega)
          (by omega) (by omega) (by omega)]
        rw [show (0xF0 + c.toNat / 262144 - 0xF0) * 262144 +
            (0x80 + c.toNat / 4096 % 64 - 0x80) * 4096 +
            (0x80 + c.toNat / 64 % 64 - 0x80) * 64 + (0x80 + c.toNat % 64 - 0x80) = c.toNat by
          omega]
        rw [Char.ofNat_toNat]

/-- The streaming decoder inverts the encoder on whole strings, carrying no
leftover state. -/
theorem decodeChunk_utf8Encode (s : Str) : decodeChunk [] (utf8Encode s) = (s, []) := by
  induction s with
  | nil => simp [utf8Encode, decodeChunk]
  | cons c cs ih =>
    have he : utf8Encode (c :: cs) = encodeChar c ++ utf8Encode cs := by
      simp [utf8Encode]
    rw [he, decodeChunk_append, decodeChunk_encodeChar, ih]
    simp

/-- When splitting finds no delimiter, the carry is the whole input. -/
theorem splitNN_carry_of_parts_nil : ∀ w, (splitNN w).1 = [] → (splitNN w).2 = w := by
  intro w
  induction w using splitNN.induct with
  | case1 => intro _; rfl
  | case2 c => intro _; rfl
  | case3 c1 c2 rest h ih =>
    intro hp
    exfalso
    obtain ⟨h1, h2⟩ := h
    subst h1; subst h2
    simp [splitNN] at hp
  | case4 c1 c2 rest h r hr ih =>
    intro _
    have hr' : (splitNN (c2 :: rest)).1 = [] := hr
    simp only [splitNN, h, if_false, hr']
    rw [ih hr']
  | case5 c1 c2 rest h r p ps hr ih =>
    intro hp
    exfalso
    have hr' : (splitNN (c2 :: rest)).1 = p :: ps := hr
    simp [splitNN, h, hr'] at hp

/-- Leftmost splitting on the blank-line delimiter composes across an
arbitrary cut: split the prefix, then resplit its carry glued to the rest. -/
theorem splitNN_append : ∀ (u v : List Char),
    splitNN (u ++ v) =
      ((splitNN u).1 ++ (splitNN ((splitNN u).2 ++ v)).1,
        (splitNN ((splitNN u).2 ++ v)).2) := by
  intro u
  induction u using splitNN.induct with
  | case1 => intro v; simp [splitNN]
  | case2 c => intro v; simp [splitNN]
  | case3 c1 c2 rest h ih =>
    intro v
    obtain ⟨h1, h2⟩ := h
    subst h1; subst h2
    have hstep : splitNN (('\n' :: '\n' :: rest) ++ v) =
        ([] :: (splitNN (rest ++ v)).1, (splitNN (rest ++ v)).2) := by
      simp [splitNN]
    have hval : splitNN ('\n' :: '\n' :: rest) =
        ([] :: (splitNN rest).1, (splitNN rest).2) := by
      simp [splitNN]
    rw [hstep, ih v, hval]
    simp [List.cons_append]
  | case4 c1 c2 rest h r hr ih =>
    intro v
    have hr' : (splitNN (c2 :: rest)).1 = [] := hr
    have hc : (splitNN (c2 :: rest)).2 = c2 :: rest := splitNN_carry_of_parts_nil _ hr'
    have hval : splitNN (c1 :: c2 :: rest) = ([], c1 :: c2 :: rest) := by
      simp only [splitNN, h, if_false, hr']
      rw [hc]
    rw [hval]
    simp
  | case5 c1 c2 rest h r p ps hr ih =>
    intro v
    have hr' : (splitNN (c2 :: rest)).1 = p :: ps := hr
    have hval : splitNN (c1 :: c2 :: rest) = ((c1 :: p) :: ps, (splitNN (c2 :: rest)).2) := by
      simp only [splitNN, h, if_false, hr']
    have hih : splitNN (c2 :: (rest ++ v)) =
        (p :: (ps ++ (splitNN ((splitNN (c2 :: rest)).2 ++ v)).1),
          (splitNN ((splitNN (c2 :: rest)).2 ++ v)).2) := by
      have h0 := ih v
      rw [hr'] at h0
      simpa [List.cons_append] using h0
    rw [hval]
    simp only [List.cons_append, splitNN, h, if_false, List.append_eq]
    rw [hih]

/-- Unpacking `noNN` on a two-character head. -/
theorem noNN_cons (c1 c2 : Char) (rest : List Char) (h : noNN (c1 :: c2 :: rest) = true) :
    ¬(c1 = '\n' ∧ c2 = '\n') ∧ noNN (c2 :: rest) = true := by
  simp only [noNN, Bool.and_eq_true, Bool.not_eq_true'] at h
  refine ⟨?_, h.2⟩
  intro hc
  rw [hc.1, hc.2] at h
  simp at h

/-- A delimiter-free increment that does not end in a newline is cut out as
exactly one complete part when followed by the blank-line delimiter. -/
theorem splitNN_frame : ∀ (p rest : List Char), noNN p = true → notEndNL p = true →
    splitNN (p ++ '\n' :: '\n' :: rest) = (p :: (splitNN rest).1, (splitNN rest).2) := by
  intro p
  induction p using splitNN.induct with
  | case1 =>
    intro rest _ _
    simp [splitNN]
  | case2 c =>
    intro rest _ hend
    have hc : ¬(c = '\n') := by
      simpa [notEndNL] using hend
    have hinner : splitNN ('\n' :: '\n' :: rest) =
        ([] :: (splitNN rest).1, (splitNN rest).2) := by
      simp [splitNN]
    simp only [List.cons_append, List.nil_append, splitNN, hc, false_and, if_false,
      List.append_eq]
    simp
  | case3 c1 c2 rest' h ih =>
    intro rest hnn _
    exfalso
    obtain ⟨h1, h2⟩ := h
    subst h1; subst h2
    simp [noNN] at hnn
  | case4 c1 c2 rest' h r hr ih =>
    intro rest hnn hend
    have hnn' : noNN (c2 :: rest') = true := (noNN_cons c1 c2 rest' hnn).2
    have hend' : notEndNL (c2 :: rest') = true := by
      simpa [notEndNL, List.getLast?_cons_cons] using hend
    have hih : splitNN (c2 :: (rest' ++ '\n' :: '\n' :: rest)) =
        ((c2 :: rest') :: (splitNN rest).1, (splitNN rest).2) := by
      have h0 := ih rest hnn' hend'
      simpa [List.cons_append] using h0
    simp only [List.cons_append, splitNN, h, if_false, List.append_eq]
    rw [hih]
  | case5 c1 c2 rest' h r p ps hr ih =>
    intro rest hnn hend
    have hnn' : noNN (c2 :: rest') = true := (noNN_cons c1 c2 rest' hnn).2
    have hend' : notEndNL (c2 :: rest') = true := by
      simpa [notEndNL, List.getLast?_cons_cons] using hend
    have hih : splitNN (c2 :: (rest' ++ '\n' :: '\n' :: rest)) =
        ((c2 :: rest') :: (splitNN rest).1, (splitNN rest).2) := by
      have h0 := ih rest hnn' hend'
      simpa [List.cons_append] using h0
    simp only [List.cons_append, splitNN, h, if_false, List.append_eq]
    rw [hih]

/-- A delimiter-terminated encoding of well-formed increments splits into
exactly those increments with an empty carry. -/
theorem splitNN_frames : ∀ (incs : List (List Char)),
    (∀ p ∈ incs, noNN p = true ∧ notEndNL p = true) →
    splitNN ((incs.map (fun i => i ++ ['\n', '\n'])).flatten) = (incs, []) := by
  intro incs
  induction incs with
  | nil => intro _; simp [splitNN]
  | cons p ps ih =>
    intro h
    have hp := h p (List.mem_cons_self _ _)
    have hps : ∀ q ∈ ps, noNN q = true ∧ notEndNL q = true := fun q hq =>
      h q (List.mem_cons_of_mem _ hq)
    have hflat : ((p :: ps).map (fun i => i ++ ['\n', '\n'])).flatten =
        p ++ '\n' :: '\n' :: ((ps.map (fun i => i ++ ['\n', '\n'])).flatten) := by
      simp [List.append_assoc]
    rw [hflat, splitNN_frame p _ hp.1 hp.2, ih hps]

/-- The sentinel is a non-empty string. -/
theorem doneChars_ne_nil : doneChars ≠ [] := by decide

/-- Processing parts none of which is the sentinel emits all their
reconstructed text, touching nothing else. -/
theorem processParts_noDone :
    ∀ (ps : List (List Char)) (s : CState), (∀ p ∈ ps, processPart p ≠ doneChars) →
      processParts ps s = { s with content := s.content ++ (ps.map processPart).flatten } := by
  intro ps
  induction ps with
  | nil => intro s _; simp [processParts]
  | cons p rest ih =>
    intro s h
    have hp : ¬(processPart p = doneChars) := h p (List.mem_cons_self _ _)
    have hrest := ih { s with content := s.content ++ processPart p }
      (fun q hq => h q (List.mem_cons_of_mem _ hq))
    by_cases hl : processPart p = []
    · simp [processParts, hp, hl, doneChars_ne_nil, ih s (fun q hq => h q (List.mem_cons_of_mem _ hq))]
    · simp [processParts, hp, hl, hrest, List.append_assoc]

/-- Processing parts that reach the sentinel emits the text before it, sets
the finished flag, and ignores everything after. -/
theorem processParts_done :
    ∀ (xs : List (List Char)) (d : List Char) (ys : List (List Char)) (s : CState),
      (∀ p ∈ xs, processPart p ≠ doneChars) → processPart d = doneChars →
      processParts (xs ++ d :: ys) s =
        { dec := [], buffer := [], content := s.content ++ (xs.map processPart).flatten,
          finished := true } := by
  intro xs
  induction xs with
  | nil => intro d ys s _ hd; simp [processParts, hd]
  | cons p rest ih =>
    intro d ys s h hd
    have hp : ¬(processPart p = doneChars) := h p (List.mem_cons_self _ _)
    have hrest := ih d ys { s with content := s.content ++ processPart p }
      (fun q hq => h q (List.mem_cons_of_mem _ hq)) hd
    by_cases hl : processPart p = []
    · simp [processParts, hp, hl, doneChars_ne_nil, ih d ys s (fun q hq => h q (List.mem_cons_of_mem _ hq)) hd]
    · simp [processParts, hp, hl, doneChars_ne_nil, hrest, List.append_assoc]

/-- Sentinel-free parts compose with whatever follows them. -/
theorem processParts_append_noDone :
    ∀ (xs ys : List (List Char)) (s : CState), (∀ p ∈ xs, processPart p ≠ doneChars) →
      processParts (xs ++ ys) s = processParts ys (processParts xs s) := by
  intro xs
  induction xs with
  | nil => intro ys s _; simp [processParts]
  | cons p rest ih =>
    intro ys s h
    have hp : ¬(processPart p = doneChars) := h p (List.mem_cons_self _ _)
    by_cases hl : processPart p = []
    · simp [processParts, hp, hl, doneChars_ne_nil, ih ys s (fun q hq => h q (List.mem_cons_of_mem _ hq))]
    · simp [processParts, hp, hl, doneChars_ne_nil,
        ih ys { s with content := s.content ++ processPart p }
          (fun q hq => h q (List.mem_cons_of_mem _ hq))]

/-- The first element rejected by `dropWhile` fails the predicate. -/
theorem dropWhile_head_not {α : Type} (P : α → Bool) :
    ∀ (l : List α) (x : α) (xs : List α), l.dropWhile P = x :: xs → P x = false := by
  intro l
  induction l with
  | nil => intro x xs h; simp [List.dropWhile] at h
  | cons a t ih =>
    intro x xs h
    by_cases hp : P a
    · rw [List.dropWhile_cons_of_pos hp] at h
      exact ih x xs h
    · rw [List.dropWhile_cons_of_neg hp] at h
      cases h
      simpa using hp

/-- The streamChat loop body is a chunk homomorphism: consuming `a` then `b`
equals consuming `a ++ b`.  This is the chunk-boundary invariance of the
consumer. -/
theorem processChunk_append (s : CState) (a b : List Nat) :
    processChunk (processChunk s a) b = processChunk s (a ++ b) := by
  by_cases hf : s.finished
  · simp [processChunk, hf]
  · have hdec := decodeChunk_append s.dec a b
    have hsplit := splitNN_append (s.buffer ++ (decodeChunk s.dec a).1)
      (decodeChunk (decodeChunk s.dec a).2 b).1
    cases hdw : (splitNN (s.buffer ++ (decodeChunk s.dec a).1)).1.dropWhile
        (fun p => decide (processPart p ≠ doneChars)) with
    | nil =>
      have htw : (splitNN (s.buffer ++ (decodeChunk s.dec a).1)).1.takeWhile
          (fun p => decide (processPart p ≠ doneChars)) =
            (splitNN (s.buffer ++ (decodeChunk s.dec a).1)).1 := by
        conv_rhs => rw [← List.takeWhile_append_dropWhile
          (p := fun p => decide (processPart p ≠ doneChars))
          (l := (splitNN (s.buffer ++ (decodeChunk s.dec a).1)).1)]
        rw [hdw]
        simp
      have hall : ∀ p ∈ (splitNN (s.buffer ++ (decodeChunk s.dec a).1)).1,
          processPart p ≠ doneChars := by
        intro p hp
        have hmem : p ∈ (splitNN (s.buffer ++ (decodeChunk s.dec a).1)).1.takeWhile
            (fun p => decide (processPart p ≠ doneChars)) := by
          rw [htw]; exact hp
        simpa using List.mem_takeWhile_imp hmem
      have hs1 : processChunk s a =
          { dec := (decodeChunk s.dec a).2
            buffer := (splitNN (s.buffer ++ (decodeChunk s.dec a).1)).2
            content := s.content ++
              (((splitNN (s.buffer ++ (decodeChunk s.dec a).1)).1.map processPart).flatten)
            finished := false } := by
        simp only [processChunk, hf, if_false, Bool.false_eq_true]
        rw [processParts_noDone _ _ hall]
      rw [hs1]
      simp only [processChunk, hf, if_false, Bool.false_eq_true, if_neg]
      rw [hdec, ← List.append_assoc, hsplit]
      rw [processParts_append_noDone _ _ _ hall]
      rw [processParts_noDone _ _ hall]
    | cons dpart ys =>
      have hxs : (splitNN (s.buffer ++ (decodeChunk s.dec a).1)).1.takeWhile
          (fun p => decide (processPart p ≠ doneChars)) ++ dpart :: ys =
            (splitNN (s.buffer ++ (decodeChunk s.dec a).1)).1 := by
        rw [← hdw, List.takeWhile_append_dropWhile]
      have hallxs : ∀ p ∈ (splitNN (s.buffer ++ (decodeChunk s.dec a).1)).1.takeWhile
          (fun p => decide (processPart p ≠ doneChars)), processPart p ≠ doneChars := by
        intro p hp
        simpa using List.mem_takeWhile_imp hp
      have hd : processPart dpart = doneChars := by
        have h0 := dropWhile_head_not (fun p => decide (processPart p ≠ doneChars))
          (splitNN (s.buffer ++ (decodeChunk s.dec a).1)).1 dpart ys hdw
        simpa using h0
      have hs1 : processChunk s a =
          { dec := [], buffer := []
            content := s.content ++
              ((((splitNN (s.buffer ++ (decodeChunk s.dec a).1)).1.takeWhile
                (fun p => decide (processPart p ≠ doneChars))).map processPart).flatten)
            finished := true } := by
        simp only [processChunk, hf, if_false, Bool.false_eq_true]
        conv_lhs => rw [← hxs]
        rw [processParts_done _ _ _ _ hallxs hd]
      rw [hs1]
      have hs2 : processChunk s (a ++ b) =
          { dec := [], buffer := []
            content := s.content ++
              ((((splitNN (s.buffer ++ (decodeChunk s.dec a).1)).1.takeWhile
                (fun p => decide (processPart p ≠ doneChars))).map processPart).flatten)
            finished := true } := by
        simp only [processChunk, hf, if_false, Bool.false_eq_true]
        rw [hdec, ← List.append_assoc, hsplit]
        conv_lhs => rw [← hxs]
        rw [show ((splitNN (s.buffer ++ (decodeChunk s.dec a).1)).1.takeWhile
              (fun p => decide (processPart p ≠ doneChars)) ++ dpart :: ys) ++
              (splitNN ((splitNN (s.buffer ++ (decodeChunk s.dec a).1)).2 ++
                (decodeChunk (decodeChunk s.dec a).2 b).1)).1 =
            (splitNN (s.buffer ++ (decodeChunk s.dec a).1)).1.takeWhile
              (fun p => decide (processPart p ≠ doneChars)) ++ dpart ::
              (ys ++ (splitNN ((splitNN (s.buffer ++ (decodeChunk s.dec a).1)).2 ++
                (decodeChunk (decodeChunk s.dec a).2 b).1)).1) by
          simp [List.append_assoc]]
        rw [processParts_done _ _ _ _ hallxs hd]
      rw [hs2]
      simp [processChunk]

/-- Consuming a stream chunk by chunk equals consuming the concatenated byte
stream in one chunk. -/
theorem consumeStream_flatten (chunks : List (List Nat)) :
    consumeStream chunks = processChunk initCState chunks.flatten := by
  have hgen : ∀ (cs : List (List Nat)) (s : CState) (d : List Nat),
      cs.foldl processChunk (processChunk s d) = processChunk s (d ++ cs.flatten) := by
    intro cs
    induction cs with
    | nil => intro s d; simp
    | cons c rest ih =>
      intro s d
      simp only [List.foldl, List.flatten_cons]
      rw [processChunk_append, ih s (d ++ c), List.append_assoc]
  cases chunks with
  | nil => decide
  | cons c rest =>
    have h0 := hgen rest initCState c
    simpa [consumeStream] using h0

/-- C1 counterexample: one increment that itself contains the blank-line
delimiter (`"x\n\ndata: y"`), delivered in a single chunk, reassembles to
`"xy"` while the spec-side concatenation of per-increment stripped text is
`"x\n\ny"` — so the claim does not hold for every sequence of increments. -/
theorem streamChat_reassembly_claim_counterexample :
    (consumeStream [encodeIncrements ["x\n\ndata: y".data]]).content ≠
      specContent ["x\n\ndata: y".data] := by decide

/-- C1 (amended): for every sequence of increments that are free of the
blank-line delimiter, do not end with a newline, and do not strip to the
`[DONE]` sentinel, and for every way of cutting the delimiter-terminated byte
stream into network chunks (including mid-UTF-8-character and mid-delimiter
cuts), the reconstructed content equals the concatenation of the increments in
delivery order with any leading `data: ` prefix stripped from each line. -/
theorem streamChat_reassembly_chunk_invariant (incs : List (List Char))
    (chunks : List (List Nat))
    (hwf : ∀ p ∈ incs, noNN p = true ∧ notEndNL p = true ∧ processPart p ≠ doneChars)
    (hbytes : chunks.flatten = encodeIncrements incs) :
    (consumeStream chunks).content = specContent incs := by
  have hrun : processChunk initCState
      (utf8Encode ((incs.map (fun i => i ++ ['\n', '\n'])).flatten)) =
        { dec := [], buffer := []
          content := [] ++ (incs.map processPart).flatten
          finished := false } := by
    simp only [processChunk, initCState, Bool.false_eq_true, if_false]
    rw [decodeChunk_utf8Encode]
    simp only [List.nil_append]
    rw [splitNN_frames incs (fun p hp => ⟨(hwf p hp).1, (hwf p hp).2.1⟩)]
    rw [processParts_noDone incs _ (fun p hp => (hwf p hp).2.2)]
    simp
  rw [consumeStream_flatten, hbytes,
    show encodeIncrements incs =
      utf8Encode ((incs.map (fun i => i ++ ['\n', '\n'])).flatten) from rfl,
    hrun]
  simp [specContent]

/-- Witness for the amended C1 theorem: two increments (one multi-byte, one
`data: `-prefixed) delivered in chunks that cut through the UTF-8 encoding of
`é` and through the blank-line delimiter. -/
theorem streamChat_reassembly_chunk_invariant_witness :
    (consumeStream [[72, 195], [169, 10], [10, 100, 97, 116, 97, 58, 32, 120, 10], [10]]).content =
      specContent ["Hé".data, "data: x".data] :=
  streamChat_reassembly_chunk_invariant ["Hé".data, "data: x".data]
    [[72, 195], [169, 10], [10, 100, 97, 116, 97, 58, 32, 120, 10], [10]]
    (by decide) (by decide)

/-- C3 counterexample: with increments `A = "a\n"` and `B = "\nz"` the newline
adjacency around the delimiter reframes the stream, and the consumer yields
`"az"` instead of `A ++ B = "a\n\nz"` — the sentinel claim does not hold for
every pair of increments. -/
theorem streamChat_sentinel_claim_counterexample :
    (consumeStream [encodeIncrements ["a\n".data, "\nz".data, doneChars]]).content ≠
      "a\n".data ++ "\nz".data := by decide

/-- C3 (amended): for increments `A`, `B` free of the blank-line delimiter,
not ending in a newline, fixed by prefix-stripping and distinct from the
sentinel, a stream delivering `A`, `B`, the literal `[DONE]` increment and
then arbitrary trailing bytes — cut into chunks in any way — yields final
content exactly `A ++ B` and stops at the sentinel: the sentinel contributes
no content and everything after it is ignored. -/
theorem streamChat_sentinel_termination (A B : List Char) (trailing : List Nat)
    (chunks : List (List Nat))
    (hA : noNN A = true ∧ notEndNL A = true ∧ processPart A = A ∧ A ≠ doneChars)
    (hB : noNN B = true ∧ notEndNL B = true ∧ processPart B = B ∧ B ≠ doneChars)
    (hbytes : chunks.flatten =
      utf8Encode (A ++ '\n' :: '\n' :: (B ++ '\n' :: '\n' :: (doneChars ++ ['\n', '\n']))) ++
        trailing) :
    (consumeStream chunks).content = A ++ B ∧ (consumeStream chunks).finished = true := by
  have hdec : decodeChunk []
      (utf8Encode (A ++ '\n' :: '\n' :: (B ++ '\n' :: '\n' :: (doneChars ++ ['\n', '\n']))) ++
        trailing) =
      ((A ++ '\n' :: '\n' :: (B ++ '\n' :: '\n' :: (doneChars ++ ['\n', '\n']))) ++
          (decodeChunk [] trailing).1,
        (decodeChunk [] trailing).2) := by
    rw [decodeChunk_append, decodeChunk_utf8Encode]
  have hsplit : splitNN
      ((A ++ '\n' :: '\n' :: (B ++ '\n' :: '\n' :: (doneChars ++ ['\n', '\n']))) ++
        (decodeChunk [] trailing).1) =
      (A :: B :: doneChars :: (splitNN (decodeChunk [] trailing).1).1,
        (splitNN (decodeChunk [] trailing).1).2) := by
    have hstream : (A ++ '\n' :: '\n' :: (B ++ '\n' :: '\n' :: (doneChars ++ ['\n', '\n']))) ++
        (decodeChunk [] trailing).1 =
        A ++ '\n' :: '\n' ::
          (B ++ '\n' :: '\n' :: (doneChars ++ '\n' :: '\n' :: (decodeChunk [] trailing).1)) := by
      simp [List.append_assoc]
    rw [hstream, splitNN_frame A _ hA.1 hA.2.1, splitNN_frame B _ hB.1 hB.2.1,
      splitNN_frame doneChars _ (by decide) (by decide)]
  have hrun : processChunk initCState (chunks.flatten) =
      { dec := [], buffer := []
        content := [] ++ (([A, B].map processPart).flatten)
        finished := true } := by
    rw [hbytes]
    simp only [processChunk, initCState, Bool.false_eq_true, if_false]
    rw [hdec]
    simp only [List.nil_append]
    rw [hsplit]
    rw [show A :: B :: doneChars :: (splitNN (decodeChunk [] trailing).1).1 =
        [A, B] ++ doneChars :: (splitNN (decodeChunk [] trailing).1).1 from rfl]
    rw [processParts_done [A, B] doneChars _ _
      (by
        intro p hp
        rcases List.mem_cons.mp hp with rfl | hp2
        · rw [hA.2.2.1]; exact hA.2.2.2
        · rcases List.mem_cons.mp hp2 with rfl | hp3
          · rw [hB.2.2.1]; exact hB.2.2.2
          · exact absurd hp3 (List.not_mem_nil p))
      (by decide)]
    simp
  rw [consumeStream_flatten, hrun]
  constructor
  · simp [hA.2.2.1, hB.2.2.1]
  · rfl

/-- Witness for the amended C3 theorem: `A = "Hi"`, `B = "ok!"`, the sentinel,
then an invalid trailing byte, delivered in chunks that cut through the
delimiters. -/
theorem streamChat_sentinel_termination_witness :
    (consumeStream [[72], [105, 10], [10, 111, 107, 33, 10, 10, 91, 68, 79, 78],
        [69, 93, 10], [10, 255]]).content = "Hi".data ++ "ok!".data ∧
      (consumeStream [[72], [105, 10], [10, 111, 107, 33, 10, 10, 91, 68, 79, 78],
        [69, 93, 10], [10, 255]]).finished = true :=
  streamChat_sentinel_termination "Hi".data "ok!".data [255]
    [[72], [105, 10], [10, 111, 107, 33, 10, 10, 91, 68, 79, 78], [69, 93, 10], [10, 255]]
    (by decide) (by decide) (by decide)
